import Mathlib

/-!
Verification of `brightness.py`, a thin wrapper over the Linux sysfs
backlight interface.  The program is shallowly embedded: the value-expression
parser (the `re.fullmatch` call in `set_current_brightness`), Python's
`int()` parsing of device-file contents, the brightness arithmetic
(including the binary64 floating-point division hidden in
`round(value * max_brightness / 100)`), the device writes, and the
dispatch/error handling of `main` are all modelled as pure functions.
Device I/O is made explicit: a `DeviceFiles` record carries the textual
contents of the two sysfs pseudo-files, and every modelled operation
returns the list of read/write `Event`s it performs, in program order.
-/

namespace Brightness

/-- Zero codepoints of the contiguous blocks of Unicode general category Nd
(decimal digits), Unicode 15.0.  Python 3's `re` module matches `\d` (in a
`str` pattern, without `re.ASCII`) against exactly the Nd characters, and
Python's `int()` accepts them as digits; every Nd block is a run of ten
consecutive codepoints with digit values 0..9 starting at the codepoint
listed here.  ASCII `0x30` is the first entry. -/
def ndZeros : List Nat :=
  [0x30, 0x660, 0x6F0, 0x7C0, 0x966, 0x9E6, 0xA66, 0xAE6, 0xB66, 0xBE6,
   0xC66, 0xCE6, 0xD66, 0xDE6, 0xE50, 0xED0, 0xF20, 0x1040, 0x1090, 0x17E0,
   0x1810, 0x1946, 0x19D0, 0x1A80, 0x1A90, 0x1B50, 0x1BB0, 0x1C40, 0x1C50,
   0xA620, 0xA8D0, 0xA900, 0xA9D0, 0xA9F0, 0xAA50, 0xABF0, 0xFF10,
   0x104A0, 0x10D30, 0x11066, 0x110F0, 0x11136, 0x111D0, 0x112F0, 0x11450,
   0x114D0, 0x11650, 0x116C0, 0x11730, 0x118E0, 0x11950, 0x11C50, 0x11D50,
   0x11DA0, 0x11F50, 0x16A60, 0x16AC0, 0x16B50, 0x1D7CE, 0x1D7D8, 0x1D7E2,
   0x1D7EC, 0x1D7F6, 0x1E140, 0x1E2F0, 0x1E4F0, 0x1E950, 0x1FBF0]

/-- The character class matched by `\d` in `re.fullmatch('([+-])?(\d+)(%)?', value)`
(brightness.py line 69): any Unicode decimal digit, not only ASCII. -/
def isPyDigit (c : Char) : Bool :=
  ndZeros.any fun z => decide (z ≤ c.toNat ∧ c.toNat ≤ z + 9)

/-- The numeric value of a Unicode decimal digit, as used by Python's `int()`. -/
def pyDigitVal (c : Char) : Nat :=
  match ndZeros.find? (fun z => decide (z ≤ c.toNat ∧ c.toNat ≤ z + 9)) with
  | some z => c.toNat - z
  | none => 0

/-- `int()` applied to a run of decimal digits: the base-10 value. -/
def pyDigitsToNat (ds : List Char) : Nat :=
  ds.foldl (fun a c => 10 * a + pyDigitVal c) 0

/-- Codepoints treated as whitespace by Python's `str.strip` / `int()`
(`Py_UNICODE_ISSPACE`). -/
def pyWsCodes : List Nat :=
  [9, 10, 11, 12, 13, 28, 29, 30, 31, 32, 133, 160, 5760,
   8192, 8193, 8194, 8195, 8196, 8197, 8198, 8199, 8200, 8201, 8202,
   8232, 8233, 8239, 8287, 12288]

def isPyWs (c : Char) : Bool := pyWsCodes.any fun z => decide (c.toNat = z)

/-- The four variants a brightness-change expression can take,
per the regex groups of brightness.py line 69: group 1 is the sign,
group 2 the digits, group 3 the percent marker. -/
inductive ChangeDirective where
  | Absolute (n : Int)
  | AbsolutePercent (p : Int)
  | Relative (sign : Char) (n : Int)
  | RelativePercent (sign : Char) (p : Int)
deriving DecidableEq

/-- Consume the optional leading sign (`([+-])?` of the regex). -/
def splitSign : List Char → Option Char × List Char
  | [] => (none, [])
  | c :: cs => if c == '+' || c == '-' then (some c, cs) else (none, c :: cs)

/-- Classify what remains after the digit run: the regex accepts only the
empty tail (no percent) or a lone `'%'` (`(%)?` followed by end of input,
since `re.fullmatch` must consume the whole string). -/
def classifyTail (sgn : Option Char) (n : Int) (tl : List Char) : Option ChangeDirective :=
  if tl = [] then
    some (match sgn with
          | none => .Absolute n
          | some c => .Relative c n)
  else if tl = ['%'] then
    some (match sgn with
          | none => .AbsolutePercent n
          | some c => .RelativePercent c n)
  else none

/-- `re.fullmatch('([+-])?(\d+)(%)?', value)` together with the group
classification of brightness.py lines 69-109, on the character list of the
input.  The regex is deterministic here ('%', '+' and '-' are not digits),
so the greedy digit run is `takeWhile isPyDigit`. -/
def parseList (l : List Char) : Option ChangeDirective :=
  let sr := splitSign l
  let ds := sr.2.takeWhile isPyDigit
  if ds = [] then none
  else classifyTail sr.1 (pyDigitsToNat ds) (sr.2.dropWhile isPyDigit)

/-- The value-expression parser: `none` models the `raise ValueError()` of
brightness.py line 72. -/
def parse (s : String) : Option ChangeDirective := parseList s.data

/-- The shapes of character lists matched by the full-string grammar
`sign? digits percent?` of the regex on brightness.py line 69, where
`digits` is one or more characters of the `\d` class (Unicode decimal
digits). -/
def GrammarShape (l : List Char) : Prop :=
  ∃ (sgn : Option Char) (ds : List Char) (pct : Bool),
    (sgn = none ∨ sgn = some '+' ∨ sgn = some '-') ∧ ds ≠ [] ∧
    (∀ c ∈ ds, isPyDigit c = true) ∧
    l = sgn.toList ++ ds ++ (if pct then ['%'] else [])

/-- Digit run of `int()`: after the first digit, single underscores are
allowed between digits (Python 3.6+ numeric literals). -/
def digitsRun : List Char → Nat → Option Nat
  | [], acc => some acc
  | c :: cs, acc =>
    if c = '_' then
      match cs with
      | [] => none
      | c2 :: cs2 =>
        if isPyDigit c2 then digitsRun cs2 (10 * acc + pyDigitVal c2) else none
    else if isPyDigit c then digitsRun cs (10 * acc + pyDigitVal c) else none

/-- A nonempty digit run, as required after the optional sign by `int()`. -/
def digitsStart : List Char → Option Nat
  | [] => none
  | c :: cs => if isPyDigit c then digitsRun cs (pyDigitVal c) else none

/-- Strip leading and trailing Python whitespace. -/
def stripPyWs (l : List Char) : List Char :=
  ((l.dropWhile isPyWs).reverse.dropWhile isPyWs).reverse

/-- Python's `int(s)` on a string: strip whitespace, optional single sign,
then a nonempty digit run (with optional single underscores between
digits).  `none` models the `ValueError` that `int()` raises otherwise.
This is `int(fd.read())` of brightness.py lines 29 and 37. -/
def pyIntParse (s : String) : Option Int :=
  match stripPyWs s.data with
  | [] => none
  | c :: rest =>
    if c = '+' then (digitsStart rest).map (fun n => (n : Int))
    else if c = '-' then (digitsStart rest).map (fun n => -(n : Int))
    else (digitsStart (c :: rest)).map (fun n => (n : Int))

/-- The textual contents of the two sysfs pseudo-files under the backlight
directory. -/
structure DeviceFiles where
  brightness : String
  max_brightness : String
deriving DecidableEq

/-- Device I/O events, in program order: opening/reading the `brightness`
file, opening/reading the `max_brightness` file, or writing the given
string to the `brightness` file (truncating it). -/
inductive Event where
  | readCur
  | readMax
  | write (contents : String)
deriving DecidableEq

/-- Round-half-to-even of the rational `a / b` (`b > 0`), computed on
integers: this is the rounding rule of both IEEE-754 round-to-nearest-even
(applied at mantissa granularity) and Python's `round()` on a float. -/
def rheNat (a b : Nat) : Nat :=
  if 2 * (a % b) < b then a / b
  else if b < 2 * (a % b) then a / b + 1
  else if (a / b) % 2 = 0 then a / b else a / b + 1

/-- Fuel-driven base-2 logarithm (structural recursion, so that it reduces
in the kernel). -/
def log2fuel : Nat → Nat → Nat
  | 0, _ => 0
  | f + 1, n => if 2 ≤ n then log2fuel f (n / 2) + 1 else 0

/-- `Nat.log2`, restated with fuel: for `n ≥ 1`,
`2 ^ natLog2 n ≤ n < 2 ^ (natLog2 n + 1)`. -/
def natLog2 (n : Nat) : Nat := log2fuel n n

/-- The binade of the binary64 quotient `a / b` (`a, b ≥ 1`): the unique
`e` with `2 ^ e ≤ a / b < 2 ^ (e + 1)`.  Writing `a = α * 2 ^ la` and
`b = β * 2 ^ lb` with `α, β ∈ [1, 2)`, the quotient is
`(α / β) * 2 ^ (la - lb)` with `α / β ∈ (1/2, 2)`, so `e = la - lb` when
`α ≥ β` (i.e. `b * 2 ^ la ≤ a * 2 ^ lb`) and `e = la - lb - 1` otherwise.
This is the exponent field of the correctly rounded binary64 quotient as
CPython's `int.__truediv__` computes it.  Exponent overflow (quotients
`≥ 2 ^ 1024`, where CPython raises `OverflowError`) and subnormals
(quotients `< 2 ^ (-1022)`, unreachable with denominator 100) are not
modelled. -/
def floatExp (a b : Nat) : Int :=
  if b * 2 ^ natLog2 a ≤ a * 2 ^ natLog2 b then (natLog2 a : Int) - natLog2 b
  else (natLog2 a : Int) - natLog2 b - 1

/-- The mantissa/exponent pair of the correctly rounded binary64 quotient:
see the doc of `floatExp` above for the exponent; the 53-bit mantissa is the
real quotient scaled into `[2 ^ 52, 2 ^ 53)` and rounded to the nearest
integer with ties to even (a result of `2 ^ 53` is the carry case, still
the correctly rounded float). -/
def floatDivP (a b : Nat) : Nat × Int :=
  if a = 0 ∨ b = 0 then (0, 0)
  else
    (rheNat (a * 2 ^ (((52 : Int) - floatExp a b).toNat))
            (b * 2 ^ ((floatExp a b - (52 : Int)).toNat)),
     floatExp a b)

/-- Python's `round(a / b)` for nonnegative integers `a`, `b` with `b > 0`:
round-half-to-even applied to the exact value of the binary64 quotient. -/
def pyRoundDiv (a b : Nat) : Nat :=
  let p := floatDivP a b
  if 52 ≤ p.2 then p.1 * 2 ^ ((p.2 - 52).toNat)
  else rheNat p.1 (2 ^ (((52 : Int) - p.2).toNat))

/-- `round(k / 100)` as brightness.py lines 96 and 105 compute it (binary64
division, then `round()`), extended to negative `k` by the sign symmetry of
IEEE-754 division and of round-half-to-even. -/
def intRoundDiv100 (k : Int) : Int :=
  if 0 ≤ k then (pyRoundDiv k.toNat 100 : Int)
  else -(pyRoundDiv k.natAbs 100 : Int)

/-- The brightness calculation of brightness.py lines 78-109, with the
device reads made explicit: the current value is read iff a sign is
present, the maximum iff a percent marker is present (lines 84-89, in that
order), and a `ValueError` from `int()` on the file contents (modelled as
`none`) aborts at the point the read occurs. -/
def compute (d : ChangeDirective) (dev : DeviceFiles) : List Event × Option Int :=
  match d with
  | .Absolute n => ([], some n)
  | .AbsolutePercent p =>
    match pyIntParse dev.max_brightness with
    | none => ([.readMax], none)
    | some mx => ([.readMax], some (intRoundDiv100 (p * mx)))
  | .Relative s n =>
    match pyIntParse dev.brightness with
    | none => ([.readCur], none)
    | some cur => ([.readCur], some (if s = '+' then cur + n else cur - n))
  | .RelativePercent s p =>
    match pyIntParse dev.brightness with
    | none => ([.readCur], none)
    | some cur =>
      match pyIntParse dev.max_brightness with
      | none => ([.readCur, .readMax], none)
      | some mx =>
        let delta := intRoundDiv100 (p * mx)
        ([.readCur, .readMax], some (if s = '+' then cur + delta else cur - delta))

/-- `set_current_brightness` (brightness.py lines 58-112): parse the
expression (raising `ValueError`, modelled `none`, before any device file
is opened), compute the new value, then open the `brightness` file for
writing (truncating) and `print(new_brightness, file=fd)`, which writes the
decimal representation followed by a single newline.  No clamping is
applied to the computed value. -/
def set_current_brightness (value : String) (dev : DeviceFiles) :
    List Event × Option DeviceFiles :=
  match parse value with
  | none => ([], none)
  | some dir =>
    match compute dir dev with
    | (ev, none) => (ev, none)
    | (ev, some v) =>
      (ev ++ [.write (toString v ++ "\n")],
       some { dev with brightness := toString v ++ "\n" })

/-- The two exception kinds that can escape `print_current_brightness`:
`ValueError` from `int()` on file contents, or `ZeroDivisionError` from
`cur * 100 / max` when the `max_brightness` file reads as 0 (the latter is
not caught by `main`, which handles only `ValueError`). -/
inductive PyExc where
  | valueError
  | zeroDivisionError
deriving DecidableEq

/-- `'%.2f'` rendering of the nonnegative binary64 value `mant * 2 ^ (e - 52)`:
CPython formats floats with correctly rounded decimal conversion, ties to
even, so the printed value is round-half-to-even of the exact float value
times 100, rendered with two decimal places. -/
def fmtFloat2 (mant : Nat) (e : Int) : String :=
  let n := if 52 ≤ e then mant * 2 ^ ((e - 52).toNat) * 100
           else rheNat (mant * 100) (2 ^ (((52 : Int) - e).toNat))
  toString (n / 100) ++ "." ++ (if n % 100 < 10 then "0" else "") ++ toString (n % 100)

/-- `print_current_brightness` (brightness.py lines 40-55): read
`max_brightness`, then `brightness` (in that order, lines 46-47), compute
`cur * 100 / max` by binary64 true division, and format the output line.
The sign of an IEEE quotient is the XOR of the operand signs (relevant only
for degenerate device contents; the `-0.0` case formats with a minus
sign). -/
def print_current_brightness (dev : DeviceFiles) : List Event × Except PyExc String :=
  match pyIntParse dev.max_brightness with
  | none => ([.readMax], .error .valueError)
  | some mx =>
    match pyIntParse dev.brightness with
    | none => ([.readMax, .readCur], .error .valueError)
    | some cur =>
      if mx = 0 then ([.readMax, .readCur], .error .zeroDivisionError)
      else
        let mag := floatDivP (cur * 100).natAbs mx.natAbs
        let pctStr := if (cur < 0 ↔ mx < 0) then fmtFloat2 mag.1 mag.2
                      else "-" ++ fmtFloat2 mag.1 mag.2
        ([.readMax, .readCur],
         .ok ("Current brightness: " ++ toString cur ++ "/" ++ toString mx ++
              " (" ++ pctStr ++ "%)"))

/-- The two commands docopt can hand to `main` (argument parsing itself is
out of scope per the spec). -/
inductive Command where
  | show
  | set (value : String)

/-- How a run of `main` ends: normal exit 0 with the printed stdout lines
and the final device state; `DocoptExit` (a usage-style error message on
stderr and a nonzero exit status), raised by the `except ValueError`
handler of brightness.py lines 124-125; or an uncaught exception
(nonzero exit with traceback, not a usage error). -/
inductive Outcome where
  | ok (stdout : List String) (dev : DeviceFiles)
  | usageExit
  | crashed
deriving DecidableEq

/-- `main` (brightness.py lines 115-125): dispatch on the command; any
`ValueError` raised below (whether from the expression parser or from
`int()` on device file contents) is caught by the single handler and
re-raised as `DocoptExit`, i.e. a usage error with nonzero exit status. -/
def main (cmd : Command) (dev : DeviceFiles) : List Event × Outcome :=
  match cmd with
  | .set v =>
    match set_current_brightness v dev with
    | (ev, none) => (ev, .usageExit)
    | (ev, some dev2) => (ev, .ok [] dev2)
  | .show =>
    match print_current_brightness dev with
    | (ev, .error .valueError) => (ev, .usageExit)
    | (ev, .error .zeroDivisionError) => (ev, .crashed)
    | (ev, .ok line) => (ev, .ok [line] dev)

/-! ### Facts about the digit classes -/

lemma ascii_digit_bounds (c : Char) (h : c.isDigit = true) :
    48 ≤ c.toNat ∧ c.toNat ≤ 57 := by
  simp [Char.isDigit] at h
  exact h

lemma isPyDigit_ascii (c : Char) (h : c.isDigit = true) : isPyDigit c = true := by
  obtain ⟨h1, h2⟩ := ascii_digit_bounds c h
  unfold isPyDigit ndZeros
  simp only [List.any_cons, Bool.or_eq_true, decide_eq_true_eq]
  exact Or.inl ⟨h1, by omega⟩

lemma pyDigitVal_ascii (c : Char) (h : c.isDigit = true) :
    pyDigitVal c = c.toNat - 48 := by
  obtain ⟨h1, h2⟩ := ascii_digit_bounds c h
  unfold pyDigitVal ndZeros
  rw [List.find?_cons_of_pos]
  · exact decide_eq_true (by exact ⟨h1, by omega⟩)

lemma isPyDigit_not_sign {c : Char} (h : isPyDigit c = true) :
    (c == '+' || c == '-') = false := by
  by_cases h1 : c = '+'
  · subst h1; exact absurd h (by decide)
  by_cases h2 : c = '-'
  · subst h2; exact absurd h (by decide)
  simp [h1, h2]

lemma foldl_digits_congr : ∀ (ds : List Char), (∀ c ∈ ds, c.isDigit = true) →
    ∀ acc : Nat, ds.foldl (fun a c => 10 * a + pyDigitVal c) acc =
      ds.foldl (fun a c => 10 * a + (c.toNat - 48)) acc
  | [], _, _ => rfl
  | c :: cs, h, acc => by
    simp only [List.foldl_cons]
    rw [pyDigitVal_ascii c (h c (by simp))]
    exact foldl_digits_congr cs (fun x hx => h x (by simp [hx])) _

lemma pyDigitsToNat_ascii (ds : List Char) (hd : ∀ c ∈ ds, c.isDigit = true) :
    pyDigitsToNat ds = ds.foldl (fun a c => 10 * a + (c.toNat - 48)) 0 :=
  foldl_digits_congr ds hd 0

/-! ### The parser on grammar-shaped inputs -/

lemma takeWhile_all_append {p : Char → Bool} {ds tl : List Char}
    (h : ∀ c ∈ ds, p c = true) (h2 : tl.takeWhile p = []) :
    (ds ++ tl).takeWhile p = ds ∧ (ds ++ tl).dropWhile p = tl := by
  induction ds with
  | nil =>
    refine ⟨h2, ?_⟩
    cases tl with
    | nil => rfl
    | cons c cs =>
      simp only [List.takeWhile_cons] at h2
      by_cases hc : p c = true
      · simp [hc] at h2
      · simp only [Bool.not_eq_true] at hc
        simp [List.dropWhile_cons, hc]
  | cons c cs ih =>
    have hc : p c = true := h c (by simp)
    have ih2 := ih (fun x hx => h x (by simp [hx]))
    simp [List.takeWhile_cons, List.dropWhile_cons, hc, ih2.1, ih2.2]

lemma parseList_complete (sgn : Option Char) (ds : List Char) (pct : Bool)
    (hs : sgn = none ∨ sgn = some '+' ∨ sgn = some '-')
    (hne : ds ≠ []) (hd : ∀ c ∈ ds, isPyDigit c = true) :
    parseList (sgn.toList ++ ds ++ (if pct then ['%'] else [])) =
      some (match sgn, pct with
            | none, false => .Absolute (pyDigitsToNat ds)
            | none, true => .AbsolutePercent (pyDigitsToNat ds)
            | some c, false => .Relative c (pyDigitsToNat ds)
            | some c, true => .RelativePercent c (pyDigitsToNat ds)) := by
  have htl : (if pct then ['%'] else []).takeWhile isPyDigit = [] := by
    cases pct
    · rfl
    · decide
  have htw := takeWhile_all_append hd htl
  obtain ⟨d0, ds2, rfl⟩ : ∃ d0 ds2, ds = d0 :: ds2 := by
    cases ds with
    | nil => exact absurd rfl hne
    | cons a as => exact ⟨a, as, rfl⟩
  rcases hs with rfl | rfl | rfl
  · have hsplit : splitSign ((d0 :: ds2) ++ (if pct then ['%'] else [])) =
        (none, (d0 :: ds2) ++ (if pct then ['%'] else [])) := by
      simp [splitSign, isPyDigit_not_sign (hd d0 (by simp))]
    unfold parseList
    rw [Option.toList, List.nil_append, hsplit]
    simp only [htw.1, htw.2]
    cases pct <;> simp [classifyTail]
  · have hsplit : splitSign ('+' :: ((d0 :: ds2) ++ (if pct then ['%'] else []))) =
        (some '+', (d0 :: ds2) ++ (if pct then ['%'] else [])) := by
      simp [splitSign]
    unfold parseList
    rw [show (some '+').toList ++ (d0 :: ds2) ++ (if pct then ['%'] else []) =
        '+' :: ((d0 :: ds2) ++ (if pct then ['%'] else [])) from by simp, hsplit]
    simp only [htw.1, htw.2]
    cases pct <;> simp [classifyTail]
  · have hsplit : splitSign ('-' :: ((d0 :: ds2) ++ (if pct then ['%'] else []))) =
        (some '-', (d0 :: ds2) ++ (if pct then ['%'] else [])) := by
      simp [splitSign]
    unfold parseList
    rw [show (some '-').toList ++ (d0 :: ds2) ++ (if pct then ['%'] else []) =
        '-' :: ((d0 :: ds2) ++ (if pct then ['%'] else [])) from by simp, hsplit]
    simp only [htw.1, htw.2]
    cases pct <;> simp [classifyTail]

/-- Claim C1: every string of the form optional sign ('+' or '-'), one or
more (ASCII) digits, optional '%', is classified by `parse` into the
correct directive variant, with numeric payload the digits read as a
base-10 integer: no sign and no percent gives `Absolute`, percent only
gives `AbsolutePercent`, sign only gives `Relative` with that sign, and
sign plus percent gives `RelativePercent` with that sign. -/
theorem claim_C1_parse_classifies (sgn : Option Char) (ds : List Char) (pct : Bool)
    (hs : sgn = none ∨ sgn = some '+' ∨ sgn = some '-')
    (hne : ds ≠ []) (hd : ∀ c ∈ ds, c.isDigit = true) :
    parse (String.mk (sgn.toList ++ ds ++ (if pct then ['%'] else []))) =
      some (match sgn, pct with
            | none, false =>
              .Absolute ((ds.foldl (fun a c => 10 * a + (c.toNat - 48)) 0 : Nat) : Int)
            | none, true =>
              .AbsolutePercent ((ds.foldl (fun a c => 10 * a + (c.toNat - 48)) 0 : Nat) : Int)
            | some c, false =>
              .Relative c ((ds.foldl (fun a c => 10 * a + (c.toNat - 48)) 0 : Nat) : Int)
            | some c, true =>
              .RelativePercent c ((ds.foldl (fun a c => 10 * a + (c.toNat - 48)) 0 : Nat) : Int)) := by
  have hc := parseList_complete sgn ds pct hs hne (fun c hc => isPyDigit_ascii c (hd c hc))
  have hval := pyDigitsToNat_ascii ds hd
  unfold parse
  rw [show (String.mk (sgn.toList ++ ds ++ (if pct then ['%'] else []))).data =
      sgn.toList ++ ds ++ (if pct then ['%'] else []) from rfl, hc]
  rcases hs with rfl | rfl | rfl <;> cases pct <;> simp [hval]

/-- Witness for C1 at the concrete input "-30%". -/
theorem claim_C1_witness :
    parse (String.mk ['-', '3', '0', '%']) = some (.RelativePercent '-' 30) := by
  have h := claim_C1_parse_classifies (some '-') ['3', '0'] true
    (by simp) (by simp) (by decide)
  exact h.trans (by decide)

/-! ### Parser soundness: accepted strings have the grammar shape -/

lemma parseTail_shape (sgn : Option Char) (rest : List Char) (d : ChangeDirective)
    (h : (if rest.takeWhile isPyDigit = [] then none
          else classifyTail sgn (pyDigitsToNat (rest.takeWhile isPyDigit))
                 (rest.dropWhile isPyDigit)) = some d) :
    ∃ (ds : List Char) (pct : Bool), ds ≠ [] ∧ (∀ c ∈ ds, isPyDigit c = true) ∧
      rest = ds ++ (if pct then ['%'] else []) := by
  by_cases hds : rest.takeWhile isPyDigit = []
  · rw [if_pos hds] at h
    exact Option.noConfusion h
  · rw [if_neg hds] at h
    have hsplit := (List.takeWhile_append_dropWhile (p := isPyDigit) (l := rest)).symm
    unfold classifyTail at h
    by_cases h1 : rest.dropWhile isPyDigit = []
    · exact ⟨_, false, hds, fun c hc => List.mem_takeWhile_imp hc,
        by simpa [h1] using hsplit⟩
    · by_cases h2 : rest.dropWhile isPyDigit = ['%']
      · exact ⟨_, true, hds, fun c hc => List.mem_takeWhile_imp hc,
          by simpa [h2] using hsplit⟩
      · rw [if_neg h1, if_neg h2] at h
        exact Option.noConfusion h

lemma parseList_sound (l : List Char) (d : ChangeDirective)
    (h : parseList l = some d) : GrammarShape l := by
  unfold parseList at h
  cases l with
  | nil => simp [splitSign, List.takeWhile_nil] at h
  | cons c cs =>
    by_cases hsgn : (c == '+' || c == '-') = true
    · rw [show splitSign (c :: cs) = (some c, cs) from by simp [splitSign, hsgn]] at h
      obtain ⟨ds, pct, hne, hd, hshape⟩ := parseTail_shape (some c) cs d h
      refine ⟨some c, ds, pct, ?_, hne, hd, by simp [hshape]⟩
      have := hsgn
      simp only [Bool.or_eq_true, beq_iff_eq] at this
      rcases this with rfl | rfl
      · exact Or.inr (Or.inl rfl)
      · exact Or.inr (Or.inr rfl)
    · rw [show splitSign (c :: cs) = (none, c :: cs) from by
        simp only [splitSign]; rw [if_neg (by simpa using hsgn)]] at h
      obtain ⟨ds, pct, hne, hd, hshape⟩ := parseTail_shape none (c :: cs) d h
      exact ⟨none, ds, pct, Or.inl rfl, hne, hd, by simp [hshape]⟩

/-- Claim C2 (amended): `parse` rejects exactly the strings that do not
match the full-string grammar `sign? digits percent?`, where `digits` are
one or more *Unicode* decimal digits (Python's `\d`, category Nd) — not
only ASCII ones.  The empty string, strings with non-digit characters,
multiple signs, a sign after the digits, whitespace, and a leading '%' are
all rejected; but a string of non-ASCII decimal digits is accepted (see the
counterexample). -/
theorem claim_C2_rejects_non_grammar :
    (∀ s : String, parse s = none ↔ ¬ GrammarShape s.data) ∧
    parse "" = none ∧ parse "abc" = none ∧ parse "+-5" = none ∧
    parse "5%%" = none ∧ parse "5 %" = none ∧ parse "%5" = none ∧
    parse "5+" = none := by
  refine ⟨fun s => ⟨fun h g => ?_, fun hng => ?_⟩,
    by decide, by decide, by decide, by decide, by decide, by decide, by decide⟩
  · obtain ⟨sgn, ds, pct, hs2, hne, hd, heq⟩ := g
    have hcomp := parseList_complete sgn ds pct hs2 hne hd
    unfold parse at h
    rw [heq, hcomp] at h
    exact Option.noConfusion h
  · cases hp : parse s with
    | none => rfl
    | some d => exact absurd (parseList_sound s.data d hp) hng

/-- Counterexample for C2 as frozen: the claim asserts that no string whose
digits include non-ASCII characters is accepted, but the code's `\d`
matches any Unicode decimal digit, so the one-character string
U+0665 (ARABIC-INDIC DIGIT FIVE) parses as `Absolute 5`. -/
theorem claim_C2_counterexample :
    parse (String.mk ['٥']) = some (.Absolute 5) := by decide

/-- Claim C5: `compute` on an `Absolute` directive returns the payload
unchanged, regardless of the device contents, and performs no device read
at all (the event list is empty: neither pseudo-file is opened). -/
theorem claim_C5_absolute_no_read (n : Int) (dev : DeviceFiles) :
    compute (.Absolute n) dev = ([], some n) := rfl

/-- Claim C6: for every expression that parses and whose computation
succeeds, `set_current_brightness` appends exactly one write event, whose
contents are the decimal string of the computed value followed by a single
newline, and the `brightness` file contents are replaced (truncated) by
that string; the value is written unmodified, with no clamping — `val`
here is arbitrary, in particular it may be negative or exceed the maximum. -/
theorem claim_C6_writes_value_verbatim (v : String) (dev : DeviceFiles)
    (dir : ChangeDirective) (ev : List Event) (val : Int)
    (hp : parse v = some dir) (hcomp : compute dir dev = (ev, some val)) :
    set_current_brightness v dev =
      (ev ++ [.write (toString val ++ "\n")],
       some { brightness := toString val ++ "\n",
              max_brightness := dev.max_brightness }) := by
  simp [set_current_brightness, hp, hcomp]

/-- Witness for C6: "-1000" against current brightness 5 writes the
negative value "-995" followed by a newline, with no clamping. -/
theorem claim_C6_witness :
    set_current_brightness "-1000" ⟨"5\n", "100\n"⟩ =
      ([.readCur, .write "-995\n"], some ⟨"-995\n", "100\n"⟩) := by
  have h := claim_C6_writes_value_verbatim "-1000" ⟨"5\n", "100\n"⟩
    (.Relative '-' 1000) [.readCur] (-995) (by decide) (by decide)
  exact h.trans (by decide)

/-- Claim C7: when the expression fails the grammar, the `ValueError` is
raised before any device file is opened: `set_current_brightness` performs
no event (no read, no write, device state unchanged) and `main` turns the
error into a usage-style exit with nonzero status (`DocoptExit`). -/
theorem claim_C7_no_device_touch (v : String) (dev : DeviceFiles)
    (h : parse v = none) :
    set_current_brightness v dev = ([], none) ∧
    main (.set v) dev = ([], .usageExit) := by
  have h1 : set_current_brightness v dev = ([], none) := by
    unfold set_current_brightness
    rw [h]
  exact ⟨h1, by simp [main, h1]⟩

/-- Witness for C7 at the malformed expression "abc". -/
theorem claim_C7_witness :
    set_current_brightness "abc" ⟨"650\n", "1000\n"⟩ = ([], none) ∧
    main (.set "abc") ⟨"650\n", "1000\n"⟩ = ([], .usageExit) :=
  claim_C7_no_device_touch "abc" ⟨"650\n", "1000\n"⟩ (by decide)

/-- Claim C10: a `ValueError` from `int()` on device-file contents (during
show or set) is caught by the same handler as a malformed expression, and
all three paths are re-reported identically as the usage-error exit
(`DocoptExit`, nonzero status): the program's error reporting does not
distinguish a device-content parse error from an invalid expression. -/
theorem claim_C10_uniform_valueerror :
    (∀ (v : String) (dev : DeviceFiles), parse v = none →
      main (.set v) dev = ([], .usageExit)) ∧
    (∀ (v : String) (dev : DeviceFiles) (dir : ChangeDirective) (ev : List Event),
      parse v = some dir → compute dir dev = (ev, none) →
      main (.set v) dev = (ev, .usageExit)) ∧
    (∀ (dev : DeviceFiles) (ev : List Event),
      print_current_brightness dev = (ev, .error .valueError) →
      main .show dev = (ev, .usageExit)) := by
  refine ⟨fun v dev h => ?_, fun v dev dir ev hp hc => ?_, fun dev ev h => ?_⟩
  · simp [main, set_current_brightness, h]
  · simp [main, set_current_brightness, hp, hc]
  · simp [main, h]

/-- Witness for C10: a malformed expression, unreadable `brightness`
contents during set, and unreadable `max_brightness` contents during show
all exit through the same usage-error path. -/
theorem claim_C10_witness :
    main (.set "abc") ⟨"5\n", "100\n"⟩ = ([], .usageExit) ∧
    main (.set "+5") ⟨"abc\n", "100\n"⟩ = ([.readCur], .usageExit) ∧
    main .show ⟨"5\n", "abc\n"⟩ = ([.readMax], .usageExit) :=
  ⟨claim_C10_uniform_valueerror.1 "abc" _ (by decide),
   claim_C10_uniform_valueerror.2.1 "+5" _ (.Relative '+' 5) [.readCur]
     (by decide) (by decide),
   claim_C10_uniform_valueerror.2.2 _ [.readMax] (by rfl)⟩

/-! ### The device reader: Python `int()` on file contents -/

lemma isPyWs_ascii_digit (c : Char) (h : c.isDigit = true) : isPyWs c = false := by
  obtain ⟨h1, h2⟩ := ascii_digit_bounds c h
  rw [Bool.eq_false_iff]
  intro hws
  unfold isPyWs pyWsCodes at hws
  simp only [List.any_cons, List.any_nil, Bool.or_eq_true, decide_eq_true_eq,
    Bool.false_eq_true, or_false] at hws
  rcases hws with h3|h3|h3|h3|h3|h3|h3|h3|h3|h3|h3|h3|h3|h3|h3|h3|h3|h3|h3|h3|h3|h3|h3|h3|h3|h3|h3|h3|h3 <;> omega

lemma digitsRun_digits : ∀ (ds : List Char), (∀ c ∈ ds, isPyDigit c = true) →
    ∀ acc : Nat,
      digitsRun ds acc = some (ds.foldl (fun a c => 10 * a + pyDigitVal c) acc)
  | [], _, _ => rfl
  | c :: cs, h, acc => by
    have hc : isPyDigit c = true := h c (by simp)
    have hcu : ¬ c = '_' := fun e => by
      rw [e] at hc
      exact absurd hc (by decide)
    rw [digitsRun.eq_def]
    simp only [if_neg hcu, if_pos hc, List.foldl_cons]
    exact digitsRun_digits cs (fun x hx => h x (by simp [hx])) _

lemma digitsStart_digits (ds : List Char) (hne : ds ≠ [])
    (hd : ∀ c ∈ ds, isPyDigit c = true) :
    digitsStart ds = some (ds.foldl (fun a c => 10 * a + pyDigitVal c) 0) := by
  cases ds with
  | nil => exact absurd rfl hne
  | cons c cs =>
    have hc := hd c (by simp)
    simp only [digitsStart, if_pos hc, List.foldl_cons]
    rw [digitsRun_digits cs (fun x hx => hd x (by simp [hx]))]
    norm_num

lemma stripPyWs_digits_newline (ds : List Char) (hne : ds ≠ [])
    (hd : ∀ c ∈ ds, c.isDigit = true) :
    stripPyWs (ds ++ ['\n']) = ds := by
  unfold stripPyWs
  have hdw : (ds ++ ['\n']).dropWhile isPyWs = ds ++ ['\n'] := by
    cases ds with
    | nil => exact absurd rfl hne
    | cons c cs =>
      have hws := isPyWs_ascii_digit c (hd c (by simp))
      simp [List.dropWhile_cons, hws]
  rw [hdw]
  rw [show (ds ++ ['\n']).reverse = '\n' :: ds.reverse from by simp]
  have h2 : List.dropWhile isPyWs ds.reverse = ds.reverse := by
    cases hrev2 : ds.reverse with
    | nil => simp
    | cons c2 t2 =>
      have hc2 : c2 ∈ ds := by
        have hm2 : c2 ∈ ds.reverse := by rw [hrev2]; simp
        simpa using hm2
      have hws2 := isPyWs_ascii_digit c2 (hd c2 hc2)
      simp [List.dropWhile_cons, hws2]
  have hnl : isPyWs '\n' = true := by decide
  simp [List.dropWhile_cons, hnl, h2]

/-- Claim C9: the device readers follow Python `int()` on the file string:
contents made of digits followed by the trailing newline that sysfs files
carry parse to the base-10 value (in particular "650\n" yields 650);
leading/trailing whitespace and an optional sign are accepted; contents
that are not a single optionally-signed integer after stripping whitespace
(such as "12 34" or "abc") raise the integer parse error (modelled as
`none`). -/
theorem claim_C9_reader_int_parsing (ds : List Char) (hne : ds ≠ [])
    (hd : ∀ c ∈ ds, c.isDigit = true) :
    pyIntParse (String.mk (ds ++ ['\n'])) =
      some ((ds.foldl (fun a c => 10 * a + (c.toNat - 48)) 0 : Nat) : Int) ∧
    pyIntParse "650\n" = some 650 ∧ pyIntParse " +650 " = some 650 ∧
    pyIntParse "-7\n" = some (-7) ∧
    pyIntParse "12 34" = none ∧ pyIntParse "abc" = none ∧
    pyIntParse "" = none := by
  refine ⟨?_, by decide, by decide, by decide, by decide, by decide, by decide⟩
  unfold pyIntParse
  rw [show (String.mk (ds ++ ['\n'])).data = ds ++ ['\n'] from rfl]
  rw [stripPyWs_digits_newline ds hne hd]
  cases ds with
  | nil => exact absurd rfl hne
  | cons c cs =>
    have hcd := hd c (by simp)
    have hplus : ¬ c = '+' := fun e => by
      rw [e] at hcd; exact absurd hcd (by decide)
    have hminus : ¬ c = '-' := fun e => by
      rw [e] at hcd; exact absurd hcd (by decide)
    have hds := digitsStart_digits (c :: cs) (by simp)
      (fun x hx => isPyDigit_ascii x (hd x hx))
    have hfold := foldl_digits_congr (c :: cs) hd 0
    simp [hplus, hminus, hds, hfold]

/-- Witness for C9 at contents "650\n". -/
theorem claim_C9_witness :
    pyIntParse (String.mk ['6', '5', '0', '\n']) = some 650 :=
  (claim_C9_reader_int_parsing ['6', '5', '0'] (by simp) (by decide)).1.trans
    (by decide)

/-! ### Relative directives -/

/-- Claim C3: `compute` on `Relative(sign, n)` reads the current brightness
(one `readCur` event) and returns `current + n` for '+' and `current - n`
for '-'; on `RelativePercent(sign, p)` it reads current then max (in that
order) and adds or subtracts `round(p * max / 100)`, the Python rounding of
the binary64 quotient. -/
theorem claim_C3_relative_arith (s : Char) (n : Int) (p m : Nat) (c : Int)
    (dev : DeviceFiles)
    (hc : pyIntParse dev.brightness = some c)
    (hm : pyIntParse dev.max_brightness = some (m : Int)) :
    compute (.Relative s n) dev =
      ([.readCur], some (if s = '+' then c + n else c - n)) ∧
    compute (.RelativePercent s (p : Int)) dev =
      ([.readCur, .readMax],
       some (if s = '+' then c + (pyRoundDiv (p * m) 100 : Int)
             else c - (pyRoundDiv (p * m) 100 : Int))) := by
  constructor
  · simp [compute, hc]
  · have hcast : intRoundDiv100 ((p : Int) * (m : Int)) =
        (pyRoundDiv (p * m) 100 : Int) := by
      unfold intRoundDiv100
      rw [if_pos (mul_nonneg (Int.natCast_nonneg p) (Int.natCast_nonneg m))]
      have htn : ((p : Int) * (m : Int)).toNat = p * m := by
        rw [← Int.natCast_mul]
        omega
      rw [htn]
    simp [compute, hc, hm, hcast]

/-- Witness for C3 at the spec's concrete examples: current 650 with "+30"
and "-30", and current 500, max 1000 with "+10%". -/
theorem claim_C3_witness :
    compute (.Relative '+' 30) ⟨"650\n", "1000\n"⟩ = ([.readCur], some 680) ∧
    compute (.Relative '-' 30) ⟨"650\n", "1000\n"⟩ = ([.readCur], some 620) ∧
    compute (.RelativePercent '+' 10) ⟨"500\n", "1000\n"⟩ =
      ([.readCur, .readMax], some 600) := by
  refine ⟨?_, ?_, ?_⟩
  · exact ((claim_C3_relative_arith '+' 30 10 1000 650 _
      (by decide) (by decide)).1).trans (by decide)
  · exact ((claim_C3_relative_arith '-' 30 10 1000 650 _
      (by decide) (by decide)).1).trans (by decide)
  · exact ((claim_C3_relative_arith '+' 0 10 1000 500 _
      (by decide) (by decide)).2).trans (by decide)

/-! ### The show command -/

/-- Claim C8: the show command reads `MaxBrightness` then
`BrightnessValue`, computes `percentage = current * 100 / max` by true
(binary64) division, and prints exactly one line
`Current brightness: <cur>/<max> (<percentage>%)` with the percentage
formatted to two decimal places; with current 650 and max 1000 the line is
`Current brightness: 650/1000 (65.00%)` (see the witness). -/
theorem claim_C8_show_format (dev : DeviceFiles) (c m : Nat)
    (hm : pyIntParse dev.max_brightness = some (m : Int))
    (hc : pyIntParse dev.brightness = some (c : Int))
    (h0 : m ≠ 0) :
    main .show dev =
      ([.readMax, .readCur],
       .ok ["Current brightness: " ++ toString (c : Int) ++ "/" ++
            toString (m : Int) ++ " (" ++
            fmtFloat2 (floatDivP (c * 100) m).1 (floatDivP (c * 100) m).2 ++
            "%)"] dev) := by
  have hm0 : ¬ ((m : Int) = 0) := by exact_mod_cast h0
  have hiff : ((c : Int) < 0 ↔ (m : Int) < 0) :=
    iff_of_false (not_lt.mpr (Int.natCast_nonneg c)) (not_lt.mpr (Int.natCast_nonneg m))
  have habs1 : ((c : Int) * 100).natAbs = c * 100 := by
    rw [show ((c : Int) * 100) = ((c * 100 : Nat) : Int) from by push_cast; ring]
    exact Int.natAbs_ofNat _
  have habs2 : ((m : Int)).natAbs = m := Int.natAbs_ofNat m
  simp [main, print_current_brightness, hm, hc, hm0, hiff, habs1, habs2]

/-- Witness for C8: the spec's concrete example, current 650 of max 1000. -/
theorem claim_C8_witness :
    main .show ⟨"650\n", "1000\n"⟩ =
      ([.readMax, .readCur],
       .ok ["Current brightness: 650/1000 (65.00%)"] ⟨"650\n", "1000\n"⟩) := by
  have h := claim_C8_show_format ⟨"650\n", "1000\n"⟩ 650 1000
    (by decide) (by decide) (by decide)
  exact h.trans (by decide)

/-! ### Round-half-to-even and binary64 rounding facts -/

lemma rheNat_eq_of (a b q r : Nat) (hb : 0 < b) (ha : a = b * q + r) (hr : r < b) :
    rheNat a b = if 2 * r < b then q
                 else if b < 2 * r then q + 1
                 else if q % 2 = 0 then q else q + 1 := by
  have hdiv : a / b = q := by
    rw [ha, Nat.mul_add_div hb, Nat.div_eq_of_lt hr, Nat.add_zero]
  have hmod : a % b = r := by
    rw [ha, Nat.mul_add_mod, Nat.mod_eq_of_lt hr]
  unfold rheNat
  rw [hdiv, hmod]

lemma rheNat100_err (a : Nat) :
    200 * rheNat a 100 ≤ 2 * a + 100 ∧ 2 * a ≤ 200 * rheNat a 100 + 100 := by
  unfold rheNat
  split_ifs <;> omega

lemma rheNat_near (a n b : Nat) (hb : 0 < b)
    (h1 : 2 * a < 2 * n * b + b) (h2 : 2 * n * b < 2 * a + b) :
    rheNat a b = n := by
  have hd : b * (a / b) + a % b = a := Nat.div_add_mod a b
  have hrb : a % b < b := Nat.mod_lt _ hb
  unfold rheNat
  set q := a / b with hq
  set r := a % b with hr
  have e1 : (2 * q) * b ≤ 2 * a := by
    calc (2 * q) * b = 2 * (b * q) := by ring
      _ ≤ 2 * (b * q) + 2 * r := Nat.le_add_right _ _
      _ = 2 * a := by rw [← hd]; ring
  have e2 : (2 * q) * b < (2 * n + 1) * b :=
    lt_of_le_of_lt e1 (by calc 2 * a < 2 * n * b + b := h1
      _ = (2 * n + 1) * b := by ring)
  have hq_le : q ≤ n := by
    have := lt_of_mul_lt_mul_right e2 (Nat.zero_le b)
    omega
  have e3 : (2 * n) * b < (2 * q + 3) * b := by
    calc (2 * n) * b = 2 * n * b := by ring
      _ < 2 * a + b := h2
      _ = 2 * (b * q) + 2 * r + b := by rw [← hd]; ring
      _ ≤ (2 * q + 3) * b := by nlinarith [hrb]
  have hn_le : n ≤ q + 1 := by
    have := lt_of_mul_lt_mul_right e3 (Nat.zero_le b)
    omega
  rcases Nat.eq_or_lt_of_le hq_le with rfl | hqn
  · have hbr : 2 * r < b := by
      have ha2 : 2 * a = 2 * (b * q) + 2 * r := by rw [← hd]; ring
      nlinarith [h1, ha2]
    rw [if_pos hbr]
  · have hn1 : n = q + 1 := by omega
    subst hn1
    have hbr : b < 2 * r := by
      have ha2 : 2 * a = 2 * (b * q) + 2 * r := by rw [← hd]; ring
      nlinarith [h2, ha2]
    rw [if_neg (by omega), if_pos hbr]

/-- The double-rounding identity behind `round(k / 100)` in binary64: when
the mantissa scale `2 ^ s` is at least `2 ^ 6` (binades up to 46, i.e.
`k < 2 ^ 53`), first rounding `k * 2 ^ s / 100` to the integer mantissa
grid (ties to even) and then rounding the float `mantissa / 2 ^ s` to an
integer (ties to even) gives exactly the round-half-to-even of `k / 100`. -/
lemma double_round (k s : Nat) (hs : 6 ≤ s) :
    rheNat (rheNat (k * 2 ^ s) 100) (2 ^ s) = rheNat k 100 := by
  have hb64 : 64 ≤ 2 ^ s := by
    calc (64 : Nat) = 2 ^ 6 := by norm_num
      _ ≤ 2 ^ s := Nat.pow_le_pow_right (by norm_num) hs
  set b := 2 ^ s with hbdef
  have hb0 : 0 < b := by omega
  have hk : k = 100 * (k / 100) + k % 100 := (Nat.div_add_mod k 100).symm
  have hr0lt : k % 100 < 100 := Nat.mod_lt _ (by norm_num)
  set d := k / 100 with hd100
  set r0 := k % 100 with hr0def
  by_cases htie : r0 = 50
  · obtain ⟨t, hst⟩ : ∃ t, s = t + 1 := ⟨s - 1, by omega⟩
    have hbh : b = 2 * 2 ^ t := by rw [hbdef, hst, pow_succ]; ring
    set g := 2 ^ t with hgdef
    have hg0 : 0 < g := pow_pos (by norm_num) t
    have hN : k * b = 100 * (d * b + g) + 0 := by
      calc k * b = (100 * d + 50) * b := by rw [show k = 100 * d + 50 from by omega]
        _ = 100 * (d * b) + 50 * b := by ring
        _ = 100 * (d * b + g) + 0 := by rw [hbh]; ring
    have hmant := rheNat_eq_of (k * b) 100 (d * b + g) 0 (by norm_num) hN (by norm_num)
    rw [hmant, if_pos (by norm_num : 2 * 0 < 100)]
    have houter := rheNat_eq_of (d * b + g) b d g hb0 (by ring) (by omega)
    rw [houter]
    have hrhs := rheNat_eq_of k 100 d 50 (by norm_num) (by omega) (by norm_num)
    rw [hrhs]
    have h2h : 2 * g = b := by omega
    rw [h2h]
    simp
  · have herr := rheNat100_err (k * b)
    set M := rheNat (k * b) 100 with hMdef
    have hNval : 2 * (k * b) = 200 * (d * b) + 2 * (r0 * b) := by
      calc 2 * (k * b) = 2 * ((100 * d + r0) * b) := by rw [← hk]
        _ = 200 * (d * b) + 2 * (r0 * b) := by ring
    rcases Nat.lt_or_ge r0 50 with hlt | hge
    · have c1 : r0 * b ≤ 49 * b := Nat.mul_le_mul_right b (by omega)
      have h1 : 2 * M < 2 * d * b + b := by
        have hh : 200 * M < 100 * (2 * d * b + b) := by nlinarith [herr.1, hNval, c1, hb64]
        linarith [hh]
      have h2 : 2 * d * b < 2 * M + b := by
        have hh : 100 * (2 * d * b) < 100 * (2 * M + b) := by nlinarith [herr.2, hNval, hb64]
        linarith [hh]
      rw [show rheNat k 100 = d from by
        rw [rheNat_eq_of k 100 d r0 (by norm_num) (by omega) (by omega), if_pos (by omega)]]
      exact rheNat_near M d b hb0 h1 h2
    · have hge51 : 51 ≤ r0 := by omega
      have c1 : r0 * b ≤ 99 * b := Nat.mul_le_mul_right b (by omega)
      have c2 : 51 * b ≤ r0 * b := Nat.mul_le_mul_right b hge51
      have h1 : 2 * M < 2 * (d + 1) * b + b := by
        have hh : 200 * M < 100 * (2 * (d + 1) * b + b) := by
          nlinarith [herr.1, hNval, c1, hb64]
        linarith [hh]
      have h2 : 2 * (d + 1) * b < 2 * M + b := by
        have hh : 100 * (2 * (d + 1) * b) < 100 * (2 * M + b) := by
          nlinarith [herr.2, hNval, c2, hb64]
        linarith [hh]
      rw [show rheNat k 100 = d + 1 from by
        rw [rheNat_eq_of k 100 d r0 (by norm_num) (by omega) (by omega),
          if_neg (by omega), if_pos (by omega)]]
      exact rheNat_near M (d + 1) b hb0 h1 h2

lemma log2fuel_spec : ∀ (f n : Nat), n ≤ f → 1 ≤ n →
    2 ^ log2fuel f n ≤ n ∧ n < 2 ^ (log2fuel f n + 1) := by
  intro f
  induction f with
  | zero => intro n h1 h2; omega
  | succ f ih =>
    intro n hf h1
    by_cases h2 : 2 ≤ n
    · have hrec := ih (n / 2) (by omega) (by omega)
      rw [show log2fuel (f + 1) n = log2fuel f (n / 2) + 1 from by
        simp [log2fuel, h2]]
      constructor
      · rw [pow_succ]
        omega
      · rw [pow_succ]
        omega
    · rw [show log2fuel (f + 1) n = 0 from by simp [log2fuel, h2]]
      simp only [pow_zero, zero_add, pow_one]
      omega

lemma natLog2_spec (n : Nat) (h : 1 ≤ n) :
    2 ^ natLog2 n ≤ n ∧ n < 2 ^ (natLog2 n + 1) :=
  log2fuel_spec n n le_rfl h

lemma natLog2_le (k c : Nat) (hk : 1 ≤ k) (h : k < 2 ^ (c + 1)) : natLog2 k ≤ c := by
  by_contra hcon
  push_neg at hcon
  have h1 := (natLog2_spec k hk).1
  have h2 : 2 ^ (c + 1) ≤ 2 ^ natLog2 k := Nat.pow_le_pow_right (by norm_num) (by omega)
  omega

lemma floatExp_le_46 (k : Nat) (hk : 1 ≤ k) (hb : k < 2 ^ 53) :
    floatExp k 100 ≤ 46 := by
  have hla : natLog2 k ≤ 52 := natLog2_le k 52 hk hb
  have hlb : natLog2 100 = 6 := by decide
  unfold floatExp
  rw [hlb]
  split_ifs <;> omega

/-- Below the binary64 integer threshold `2 ^ 53`, Python's
`round(k / 100)` (float division then banker's rounding) agrees with the
exact rational round-half-to-even of `k / 100`. -/
lemma pyRoundDiv_eq_rheNat (k : Nat) (hb : k < 2 ^ 53) :
    pyRoundDiv k 100 = rheNat k 100 := by
  rcases Nat.eq_zero_or_pos k with rfl | hk
  · decide
  · have he := floatExp_le_46 k hk hb
    have hne : ¬ (k = 0 ∨ (100 : Nat) = 0) := by omega
    have hfd : floatDivP k 100 =
        (rheNat (k * 2 ^ (((52 : Int) - floatExp k 100).toNat))
                (100 * 2 ^ ((floatExp k 100 - (52 : Int)).toNat)),
         floatExp k 100) := by
      unfold floatDivP
      rw [if_neg hne]
    simp only [pyRoundDiv, hfd]
    rw [if_neg (by omega : ¬ (52 : Int) ≤ floatExp k 100)]
    have hz : ((floatExp k 100 - (52 : Int)).toNat) = 0 := by omega
    rw [hz, pow_zero, mul_one]
    exact double_round k (((52 : Int) - floatExp k 100).toNat) (by omega)

/-- Claim C4 (amended): `compute` on `AbsolutePercent(p)` reads the
maximum and returns Python's `round(p * max / 100)`, i.e. the half-to-even
rounding of the binary64 quotient; whenever `p * max < 2 ^ 53` this equals
the exact rational round-half-to-even of `p * max / 100` (`rheNat`), so in
particular max 1000 with p 70 gives 700 — but, contrary to the frozen
claim, not for *all* nonnegative `p` and `max` (see the counterexample). -/
theorem claim_C4_percent_rounding (p m : Nat) (dev : DeviceFiles)
    (hm : pyIntParse dev.max_brightness = some (m : Int))
    (hb : p * m < 2 ^ 53) :
    compute (.AbsolutePercent (p : Int)) dev =
      ([.readMax], some ((rheNat (p * m) 100 : Nat) : Int)) := by
  have hcast : intRoundDiv100 ((p : Int) * (m : Int)) =
      ((pyRoundDiv (p * m) 100 : Nat) : Int) := by
    unfold intRoundDiv100
    rw [if_pos (mul_nonneg (Int.natCast_nonneg p) (Int.natCast_nonneg m))]
    have htn : ((p : Int) * (m : Int)).toNat = p * m := by
      rw [← Int.natCast_mul]
      omega
    rw [htn]
  simp [compute, hm, hcast, pyRoundDiv_eq_rheNat (p * m) hb]

/-- Witness for C4 at the spec's example: 70 percent of max 1000 is 700. -/
theorem claim_C4_witness :
    compute (.AbsolutePercent 70) ⟨"650\n", "1000\n"⟩ = ([.readMax], some 700) := by
  have h := claim_C4_percent_rounding 70 1000 ⟨"650\n", "1000\n"⟩ (by decide) (by decide)
  exact h.trans (by decide)

/-- Counterexample for C4 as frozen: the claim asserts that the computed
value equals the exact rational round-half-to-even of `p * max / 100` for
all nonnegative `p` and `max`.  With `max = 1` (positive) and
`p = 100 * 2 ^ 49 + 144`, the exact quotient is `2 ^ 49 + 1.44`, whose
round-half-to-even is `2 ^ 49 + 1`; but the binary64 quotient rounds up to
`2 ^ 49 + 1.5` (the mantissa grid spacing in that binade is `1/8`), and
Python's `round` then gives `2 ^ 49 + 2`: the code and the exact rational
rounding differ. -/
theorem claim_C4_counterexample :
    compute (.AbsolutePercent (100 * 2 ^ 49 + 144)) ⟨"650\n", "1\n"⟩ =
      ([.readMax], some (2 ^ 49 + 2)) ∧
    rheNat ((100 * 2 ^ 49 + 144) * 1) 100 = 2 ^ 49 + 1 := by
  constructor
  · decide
  · decide

end Brightness
